import Mathlib

set_option maxHeartbeats 1600000

/-!
Shallow embedding of the bit-framing and session-completion logic of the
FSK utility (`app_fsk.c` and `app_fsk_18.c`): the Tx framer `put_bit`,
the Rx session handlers `get_bit` and `rx_status`, the receive-session
setup sequence of `fskRX_exec`, and the driver loops of `fskTX_exec` and
`fskRX_exec`.  The C `int` cursors stay non-negative for the whole life
of a session, so they are embedded as `Nat`; values pushed by the modem
are C `int`s and are embedded as `Int`.
-/

namespace AppFsk

/-- Transmit-session state, `struct transmit_buffer_s`.  `buffer` holds the
payload bytes of the message C string (`strlen` bytes, none of them 0);
the terminating NUL byte that `put_bit` reads at index `bytes2send` is
recovered by `List.getD _ _ 0`. -/
structure TxState where
  ptr : Nat
  bytes2send : Nat
  current_bit_no : Nat
  buffer : List Nat
deriving Repr, DecidableEq

/-- The byte `*((int8_t *)user_data->buffer + user_data->ptr)` read by
`put_bit`: a payload byte, or the C string terminator 0 at index
`bytes2send`. -/
def byteAt (s : TxState) : Nat :=
  s.buffer.getD s.ptr 0

/-- `put_bit` from `app_fsk.c` lines 168-181 (identical logic in
`app_fsk_18.c` lines 185-208): one pull of the Tx framer, returning the
emitted bit and the updated state.  The C local `int8_t data` is embedded
as `Nat`; the final C test `data != 0` agrees with the `Nat` test because
the mask `1 << (current_bit_no - 1)` keeps a single bit of the byte. -/
def put_bit (s : TxState) : Nat × TxState :=
  if s.ptr ≤ s.bytes2send then
    let data : Nat :=
      if s.current_bit_no ≠ 0 ∧ s.current_bit_no ≠ 9 then
        byteAt s &&& (1 <<< (s.current_bit_no - 1))
      else if s.current_bit_no ≠ 9 then 0
      else 1
    let bn := s.current_bit_no + 1
    (if data ≠ 0 then 1 else 0,
     { s with
        ptr := if bn = 10 then s.ptr + 1 else s.ptr,
        current_bit_no := if bn = 10 then 0 else bn })
  else
    (1, s)

/-- The transmit session exactly as `fskTX_exec` builds it:
`out->buffer = data; out->bytes2send = strlen(data); out->current_bit_no = 0;
out->ptr = 0;`. -/
def mkTxSession (msg : List Nat) : TxState :=
  { ptr := 0, bytes2send := msg.length, current_bit_no := 0, buffer := msg }

/-- Iterate `put_bit` `n` times, collecting the emitted bits in order. -/
def putBits : TxState → Nat → List Nat × TxState
  | s, 0 => ([], s)
  | s, n + 1 =>
    let r := put_bit s
    let rest := putBits r.2 n
    (r.1 :: rest.1, rest.2)

/-- Receive-session state, `struct receive_buffer_s`.  The C `int` flags
`quitoncarrierlost` and `FSK_eof` are 0/1 valued and embedded as `Bool`;
`buffer` is the `malloc`ed byte region, with its fixed capacity given by
the list length. -/
structure RxState where
  ptr : Nat
  quitoncarrierlost : Bool
  FSK_eof : Bool
  buffer : List Nat
deriving Repr, DecidableEq

/-- `rx_status` from `app_fsk.c` lines 144-152 (identical in
`app_fsk_18.c` lines 161-169): the status code `-1` is spandsp's
`SIG_STATUS_CARRIER_DOWN` (carrier loss). -/
def rx_status (s : RxState) (status : Int) : RxState :=
  if status = -1 ∧ s.quitoncarrierlost = true then { s with FSK_eof := true } else s

/-- `get_bit` from `app_fsk.c` lines 154-166 (identical in `app_fsk_18.c`
lines 171-183): a negative value is routed to `rx_status`; otherwise the
byte `(char) bit & 0xff` (the low 8 bits of the pushed int) is stored at
the write cursor and the cursor advances.  The C code performs the store
with no capacity check whatsoever; `List.set` keeps the embedding total
where the C write would run past the allocation. -/
def get_bit (s : RxState) (bit : Int) : RxState :=
  if bit < 0 then rx_status s bit
  else { s with buffer := s.buffer.set s.ptr (bit.toNat % 256), ptr := s.ptr + 1 }

/-- A fresh receive buffer as `fskRX_exec` allocates it: cursor 0, zeroed
capacity-`cap` byte region, `FSK_eof` clear. -/
def mkRxSession (cap : Nat) (q : Bool) : RxState :=
  { ptr := 0, quitoncarrierlost := q, FSK_eof := false, buffer := List.replicate cap 0 }

/-- The receive-session setup sequence of `fskRX_exec` (`app_fsk.c` lines
294-320, `app_fsk_18.c` lines 316-345), in source order: the freshly
`malloc`ed struct (`junk` stands for its uninitialised fields), then
option parsing (`OPT_HANGOUT`, letter `h`, clears `quitoncarrierlost`),
then the unconditional initialisation
`in->FSK_eof = 0; in->quitoncarrierlost = 1;` followed by the zeroed
buffer and `in->ptr = 0`. -/
def rxSetup (junk : RxState) (hFlag : Bool) (cap : Nat) : RxState :=
  let s1 := if hFlag then { junk with quitoncarrierlost := false } else junk
  { s1 with
      FSK_eof := false,
      quitoncarrierlost := true,
      buffer := List.replicate cap 0,
      ptr := 0 }

/-- The guard of the transmit driver loop: `while (out->ptr < out->bytes2send)`. -/
def txLoopGuard (s : TxState) : Bool :=
  s.ptr < s.bytes2send

/-- One inbound transport event seen by the transmit loop: `ast_read`
returning NULL (hangup), or a frame whose matching `ast_write` succeeds
or fails. -/
inductive TxEvent where
  | hangup : TxEvent
  | frame (writeOk : Bool) : TxEvent
deriving Repr, DecidableEq

/-- One `fsk_tx` block: the modem pulls `bits` framer bits to fill an
audio block. -/
def txStep (bits : Nat) (s : TxState) : TxState :=
  (putBits s bits).2

/-- The transmit driver loop of `fskTX_exec` (`app_fsk.c` lines 226-243):
returns the framer state and the final value of the local `res`
(`-1` after a hangup or failed write, `0` otherwise). -/
def txLoop (bits : Nat) : List TxEvent → TxState → TxState × Int
  | [], s => (s, 0)
  | ev :: rest, s =>
    if txLoopGuard s then
      match ev with
      | TxEvent.hangup => (s, -1)
      | TxEvent.frame true => txLoop bits rest (txStep bits s)
      | TxEvent.frame false => (txStep bits s, -1)
    else (s, 0)

/-- End-to-end result of `fskTX_exec` for one transmit session: the pair
is (final value of the local `res`, the value the function returns).
The C function ends in `return 0;` whatever `res` holds. -/
def fskTX_exec (bits : Nat) (msg : List Nat) (evs : List TxEvent) : Int × Int :=
  ((txLoop bits evs (mkTxSession msg)).2, 0)

/-- One inbound event seen by the receive loop: `ast_read` returning NULL
(hangup), or a frame whose decoded content pushes `pushes` values through
`get_bit` and whose matching outbound `ast_write` succeeds or fails. -/
inductive RxEvent where
  | hangup : RxEvent
  | frame (pushes : List Int) (writeOk : Bool) : RxEvent
deriving Repr, DecidableEq

/-- The receive driver loop of `fskRX_exec` (`app_fsk.c` lines 325-354):
hangup breaks with `res = -1`; after feeding a voice frame to the modem
the loop breaks on `FSK_eof` before the outbound write; a failed write
breaks with `res = -1`. -/
def rxLoop : List RxEvent → RxState → RxState × Int
  | [], s => (s, 0)
  | RxEvent.hangup :: _, s => (s, -1)
  | RxEvent.frame pushes ok :: rest, s =>
    let s1 := pushes.foldl get_bit s
    if s1.FSK_eof then (s1, 0)
    else if ok then rxLoop rest s1
    else (s1, -1)

/-- End-to-end result of `fskRX_exec` for one receive session: the pair is
(final value of the local `res`, the value the function returns).  The C
function ends in `return 0;` whatever `res` holds. -/
def fskRX_exec (evs : List RxEvent) (hFlag : Bool) (junk : RxState) (cap : Nat) : Int × Int :=
  ((rxLoop evs (rxSetup junk hFlag cap)).2, 0)

/-- The sequence of buffer writes performed by a run of `get_bit` calls:
store the low byte of each value at consecutive cursor positions. -/
def writeBytes : List Nat → Nat → List Int → List Nat
  | buf, _, [] => buf
  | buf, p, v :: t => writeBytes (buf.set p (v.toNat % 256)) (p + 1) t

/-! ### Helper lemmas -/

lemma bitSel (b k : Nat) :
    (if b &&& (1 <<< k) ≠ 0 then (1 : Nat) else 0) = (b >>> k) &&& 1 := by
  rw [Nat.one_shiftLeft, Nat.and_one_is_mod, Nat.shiftRight_eq_div_pow]
  rcases Nat.mod_two_eq_zero_or_one (b / 2 ^ k) with h | h
  · have hbit : b.testBit k = false := by
      rw [Nat.testBit_to_div_mod]
      simp [h]
    have hz : b &&& 2 ^ k = 0 := by
      rw [Nat.and_two_pow, hbit]
      simp
    simp [hz, h]
  · have hbit : b.testBit k = true := by
      rw [Nat.testBit_to_div_mod]
      simp [h]
    have hp : b &&& 2 ^ k = 2 ^ k := by
      rw [Nat.and_two_pow, hbit]
      simp
    have h2 : (2 : Nat) ^ k ≠ 0 := by positivity
    simp [hp, h, h2]

lemma put_bit_start (p m : Nat) (msg : List Nat) (h : p ≤ m) :
    put_bit ⟨p, m, 0, msg⟩ = (0, ⟨p, m, 1, msg⟩) := by
  simp only [put_bit]
  rw [if_pos h]
  rfl

lemma put_bit_dataBit (p m k : Nat) (msg : List Nat) (h : p ≤ m)
    (hk1 : 1 ≤ k) (hk8 : k ≤ 8) :
    put_bit ⟨p, m, k, msg⟩ =
      ((msg.getD p 0 >>> (k - 1)) &&& 1, ⟨p, m, k + 1, msg⟩) := by
  have hk0 : k ≠ 0 := by omega
  have hk9 : k ≠ 9 := by omega
  have h10 : ¬(k + 1 = 10) := by omega
  simp only [put_bit]
  rw [if_pos h, if_pos (⟨hk0, hk9⟩ : k ≠ 0 ∧ k ≠ 9), if_neg h10, if_neg h10, bitSel]
  rfl

lemma put_bit_stop (p m : Nat) (msg : List Nat) (h : p ≤ m) :
    put_bit ⟨p, m, 9, msg⟩ = (1, ⟨p + 1, m, 0, msg⟩) := by
  simp only [put_bit]
  rw [if_pos h]
  rfl

lemma put_bit_state (a L k : Nat) (msg : List Nat) (h : a ≤ L) :
    (put_bit ⟨a, L, k, msg⟩).2 =
      ⟨if k + 1 = 10 then a + 1 else a, L, if k + 1 = 10 then 0 else k + 1, msg⟩ := by
  simp only [put_bit]
  rw [if_pos h]

lemma put_bit_exhausted (s : TxState) (h : s.bytes2send < s.ptr) :
    put_bit s = (1, s) := by
  simp only [put_bit]
  rw [if_neg (by omega)]

lemma putBits_exhausted (s : TxState) (h : s.bytes2send < s.ptr) :
    ∀ n, putBits s n = (List.replicate n 1, s) := by
  intro n
  induction n with
  | zero => rfl
  | succ n ih =>
    show ((put_bit s).1 :: (putBits (put_bit s).2 n).1, (putBits (put_bit s).2 n).2) = _
    rw [put_bit_exhausted s h]
    show (1 :: (putBits s n).1, (putBits s n).2) = _
    rw [ih, List.replicate_succ]

lemma putBits_snd_succ (s : TxState) (n : Nat) :
    (putBits s (n + 1)).2 = (put_bit ((putBits s n).2)).2 := by
  induction n generalizing s with
  | zero => rfl
  | succ n ih =>
    show (putBits (put_bit s).2 (n + 1)).2 = (put_bit ((putBits (put_bit s).2 n).2)).2
    exact ih (put_bit s).2

/-- One full 10-bit frame from phase 0: start bit 0, the eight data bits of
the byte at the cursor least-significant first, stop bit 1; the cursor
advances by one byte. -/
lemma frame10 (p m : Nat) (msg : List Nat) (h : p ≤ m) :
    putBits ⟨p, m, 0, msg⟩ 10 =
      ([0, (msg.getD p 0 >>> 0) &&& 1, (msg.getD p 0 >>> 1) &&& 1,
        (msg.getD p 0 >>> 2) &&& 1, (msg.getD p 0 >>> 3) &&& 1,
        (msg.getD p 0 >>> 4) &&& 1, (msg.getD p 0 >>> 5) &&& 1,
        (msg.getD p 0 >>> 6) &&& 1, (msg.getD p 0 >>> 7) &&& 1, 1],
       ⟨p + 1, m, 0, msg⟩) := by
  have S9 : putBits ⟨p, m, 9, msg⟩ 1 = ([1], ⟨p + 1, m, 0, msg⟩) := by
    rw [show putBits ⟨p, m, 9, msg⟩ 1 =
        ((put_bit ⟨p, m, 9, msg⟩).1 :: (putBits (put_bit ⟨p, m, 9, msg⟩).2 0).1,
         (putBits (put_bit ⟨p, m, 9, msg⟩).2 0).2) from rfl,
      put_bit_stop p m msg h]
    rfl
  have S8 : putBits ⟨p, m, 8, msg⟩ 2 =
      ([(msg.getD p 0 >>> 7) &&& 1, 1], ⟨p + 1, m, 0, msg⟩) := by
    rw [show putBits ⟨p, m, 8, msg⟩ 2 =
        ((put_bit ⟨p, m, 8, msg⟩).1 :: (putBits (put_bit ⟨p, m, 8, msg⟩).2 1).1,
         (putBits (put_bit ⟨p, m, 8, msg⟩).2 1).2) from rfl,
      put_bit_dataBit p m 8 msg h (by omega) (by omega)]
    show (((msg.getD p 0 >>> 7) &&& 1) :: (putBits ⟨p, m, 9, msg⟩ 1).1,
          (putBits ⟨p, m, 9, msg⟩ 1).2) = _
    rw [S9]
  have S7 : putBits ⟨p, m, 7, msg⟩ 3 =
      ([(msg.getD p 0 >>> 6) &&& 1, (msg.getD p 0 >>> 7) &&& 1, 1],
       ⟨p + 1, m, 0, msg⟩) := by
    rw [show putBits ⟨p, m, 7, msg⟩ 3 =
        ((put_bit ⟨p, m, 7, msg⟩).1 :: (putBits (put_bit ⟨p, m, 7, msg⟩).2 2).1,
         (putBits (put_bit ⟨p, m, 7, msg⟩).2 2).2) from rfl,
      put_bit_dataBit p m 7 msg h (by omega) (by omega)]
    show (((msg.getD p 0 >>> 6) &&& 1) :: (putBits ⟨p, m, 8, msg⟩ 2).1,
          (putBits ⟨p, m, 8, msg⟩ 2).2) = _
    rw [S8]
  have S6 : putBits ⟨p, m, 6, msg⟩ 4 =
      ([(msg.getD p 0 >>> 5) &&& 1, (msg.getD p 0 >>> 6) &&& 1,
        (msg.getD p 0 >>> 7) &&& 1, 1], ⟨p + 1, m, 0, msg⟩) := by
    rw [show putBits ⟨p, m, 6, msg⟩ 4 =
        ((put_bit ⟨p, m, 6, msg⟩).1 :: (putBits (put_bit ⟨p, m, 6, msg⟩).2 3).1,
         (putBits (put_bit ⟨p, m, 6, msg⟩).2 3).2) from rfl,
      put_bit_dataBit p m 6 msg h (by omega) (by omega)]
    show (((msg.getD p 0 >>> 5) &&& 1) :: (putBits ⟨p, m, 7, msg⟩ 3).1,
          (putBits ⟨p, m, 7, msg⟩ 3).2) = _
    rw [S7]
  have S5 : putBits ⟨p, m, 5, msg⟩ 5 =
      ([(msg.getD p 0 >>> 4) &&& 1, (msg.getD p 0 >>> 5) &&& 1,
        (msg.getD p 0 >>> 6) &&& 1, (msg.getD p 0 >>> 7) &&& 1, 1],
       ⟨p + 1, m, 0, msg⟩) := by
    rw [show putBits ⟨p, m, 5, msg⟩ 5 =
        ((put_bit ⟨p, m, 5, msg⟩).1 :: (putBits (put_bit ⟨p, m, 5, msg⟩).2 4).1,
         (putBits (put_bit ⟨p, m, 5, msg⟩).2 4).2) from rfl,
      put_bit_dataBit p m 5 msg h (by omega) (by omega)]
    show (((msg.getD p 0 >>> 4) &&& 1) :: (putBits ⟨p, m, 6, msg⟩ 4).1,
          (putBits ⟨p, m, 6, msg⟩ 4).2) = _
    rw [S6]
  have S4 : putBits ⟨p, m, 4, msg⟩ 6 =
      ([(msg.getD p 0 >>> 3) &&& 1, (msg.getD p 0 >>> 4) &&& 1,
        (msg.getD p 0 >>> 5) &&& 1, (msg.getD p 0 >>> 6) &&& 1,
        (msg.getD p 0 >>> 7) &&& 1, 1], ⟨p + 1, m, 0, msg⟩) := by
    rw [show putBits ⟨p, m, 4, msg⟩ 6 =
        ((put_bit ⟨p, m, 4, msg⟩).1 :: (putBits (put_bit ⟨p, m, 4, msg⟩).2 5).1,
         (putBits (put_bit ⟨p, m, 4, msg⟩).2 5).2) from rfl,
      put_bit_dataBit p m 4 msg h (by omega) (by omega)]
    show (((msg.getD p 0 >>> 3) &&& 1) :: (putBits ⟨p, m, 5, msg⟩ 5).1,
          (putBits ⟨p, m, 5, msg⟩ 5).2) = _
    rw [S5]
  have S3 : putBits ⟨p, m, 3, msg⟩ 7 =
      ([(msg.getD p 0 >>> 2) &&& 1, (msg.getD p 0 >>> 3) &&& 1,
        (msg.getD p 0 >>> 4) &&& 1, (msg.getD p 0 >>> 5) &&& 1,
        (msg.getD p 0 >>> 6) &&& 1, (msg.getD p 0 >>> 7) &&& 1, 1],
       ⟨p + 1, m, 0, msg⟩) := by
    rw [show putBits ⟨p, m, 3, msg⟩ 7 =
        ((put_bit ⟨p, m, 3, msg⟩).1 :: (putBits (put_bit ⟨p, m, 3, msg⟩).2 6).1,
         (putBits (put_bit ⟨p, m, 3, msg⟩).2 6).2) from rfl,
      put_bit_dataBit p m 3 msg h (by omega) (by omega)]
    show (((msg.getD p 0 >>> 2) &&& 1) :: (putBits ⟨p, m, 4, msg⟩ 6).1,
          (putBits ⟨p, m, 4, msg⟩ 6).2) = _
    rw [S4]
  have S2 : putBits ⟨p, m, 2, msg⟩ 8 =
      ([(msg.getD p 0 >>> 1) &&& 1, (msg.getD p 0 >>> 2) &&& 1,
        (msg.getD p 0 >>> 3) &&& 1, (msg.getD p 0 >>> 4) &&& 1,
        (msg.getD p 0 >>> 5) &&& 1, (msg.getD p 0 >>> 6) &&& 1,
        (msg.getD p 0 >>> 7) &&& 1, 1], ⟨p + 1, m, 0, msg⟩) := by
    rw [show putBits ⟨p, m, 2, msg⟩ 8 =
        ((put_bit ⟨p, m, 2, msg⟩).1 :: (putBits (put_bit ⟨p, m, 2, msg⟩).2 7).1,
         (putBits (put_bit ⟨p, m, 2, msg⟩).2 7).2) from rfl,
      put_bit_dataBit p m 2 msg h (by omega) (by omega)]
    show (((msg.getD p 0 >>> 1) &&& 1) :: (putBits ⟨p, m, 3, msg⟩ 7).1,
          (putBits ⟨p, m, 3, msg⟩ 7).2) = _
    rw [S3]
  have S1 : putBits ⟨p, m, 1, msg⟩ 9 =
      ([(msg.getD p 0 >>> 0) &&& 1, (msg.getD p 0 >>> 1) &&& 1,
        (msg.getD p 0 >>> 2) &&& 1, (msg.getD p 0 >>> 3) &&& 1,
        (msg.getD p 0 >>> 4) &&& 1, (msg.getD p 0 >>> 5) &&& 1,
        (msg.getD p 0 >>> 6) &&& 1, (msg.getD p 0 >>> 7) &&& 1, 1],
       ⟨p + 1, m, 0, msg⟩) := by
    rw [show putBits ⟨p, m, 1, msg⟩ 9 =
        ((put_bit ⟨p, m, 1, msg⟩).1 :: (putBits (put_bit ⟨p, m, 1, msg⟩).2 8).1,
         (putBits (put_bit ⟨p, m, 1, msg⟩).2 8).2) from rfl,
      put_bit_dataBit p m 1 msg h (by omega) (by omega)]
    show (((msg.getD p 0 >>> 0) &&& 1) :: (putBits ⟨p, m, 2, msg⟩ 8).1,
          (putBits ⟨p, m, 2, msg⟩ 8).2) = _
    rw [S2]
  rw [show putBits ⟨p, m, 0, msg⟩ 10 =
      ((put_bit ⟨p, m, 0, msg⟩).1 :: (putBits (put_bit ⟨p, m, 0, msg⟩).2 9).1,
       (putBits (put_bit ⟨p, m, 0, msg⟩).2 9).2) from rfl,
    put_bit_start p m msg h]
  show (0 :: (putBits ⟨p, m, 1, msg⟩ 9).1, (putBits ⟨p, m, 1, msg⟩ 9).2) = _
  rw [S1]

/-- The state after `i` single-bit pulls of a fresh session: the cursor
sits at frame `i / 10`, the bit phase at `i % 10`. -/
lemma state_at (msg : List Nat) :
    ∀ i, i ≤ (msg.length + 1) * 10 →
      (putBits (mkTxSession msg) i).2 = ⟨i / 10, msg.length, i % 10, msg⟩ := by
  intro i
  induction i with
  | zero => intro _; rfl
  | succ i ih =>
    intro h
    have hi : i ≤ (msg.length + 1) * 10 := by omega
    have hdiv : i / 10 ≤ msg.length := by omega
    rw [putBits_snd_succ, ih hi, put_bit_state _ _ _ _ hdiv]
    by_cases h9 : i % 10 + 1 = 10
    · rw [if_pos h9, if_pos h9]
      simp only [TxState.mk.injEq]
      exact ⟨by omega, trivial, by omega, trivial⟩
    · rw [if_neg h9, if_neg h9]
      simp only [TxState.mk.injEq]
      exact ⟨by omega, trivial, by omega, trivial⟩

lemma get_bit_nonneg (s : RxState) (v : Int) (h : 0 ≤ v) :
    get_bit s v =
      { s with buffer := s.buffer.set s.ptr (v.toNat % 256), ptr := s.ptr + 1 } := by
  have hneg : ¬v < 0 := by omega
  simp [get_bit, hneg]

lemma foldl_get_bit (vs : List Int) (s : RxState) (h : ∀ v ∈ vs, 0 ≤ v) :
    vs.foldl get_bit s =
      { s with ptr := s.ptr + vs.length, buffer := writeBytes s.buffer s.ptr vs } := by
  induction vs generalizing s with
  | nil => rfl
  | cons v t ih =>
    rw [List.foldl_cons, get_bit_nonneg s v (h v (List.mem_cons_self v t)),
      ih _ (fun w hw => h w (List.mem_cons_of_mem v hw))]
    simp only [writeBytes, List.length_cons, RxState.mk.injEq]
    exact ⟨by omega, trivial, trivial, trivial⟩

lemma writeBytes_split (vs : List Int) :
    ∀ (buf : List Nat) (p : Nat), p + vs.length ≤ buf.length →
      writeBytes buf p vs =
        buf.take p ++ vs.map (fun v => v.toNat % 256) ++ buf.drop (p + vs.length) := by
  induction vs with
  | nil =>
    intro buf p h
    simp [writeBytes]
  | cons v t ih =>
    intro buf p h
    simp only [List.map_cons, List.length_cons] at h ⊢
    have hp : p < buf.length := by omega
    show writeBytes (buf.set p (v.toNat % 256)) (p + 1) t = _
    rw [ih _ _ (by simp only [List.length_set]; omega)]
    have h1 : (buf.set p (v.toNat % 256)).take (p + 1) =
        buf.take p ++ [v.toNat % 256] := by
      rw [List.set_eq_take_cons_drop _ hp, List.take_append_eq_append_take,
        List.take_take]
      have hmin : min (p + 1) p = p := by omega
      have hlen : (buf.take p).length = p := by
        rw [List.length_take]
        omega
      rw [hmin, hlen]
      have hone : p + 1 - p = 1 := by omega
      rw [hone]
      simp
    have h2 : (buf.set p (v.toNat % 256)).drop (p + 1 + t.length) =
        buf.drop (p + 1 + t.length) := by
      rw [List.drop_set_of_lt _ _ (by omega : p < p + 1 + t.length)]
    rw [h1, h2]
    have h3 : p + 1 + t.length = p + (t.length + 1) := by omega
    rw [h3]
    simp [List.append_assoc]

/-! ### Claim theorems -/

/-- Claim C1: starting the Tx framer in a non-exhausted state with
`bitPhase = 0` and byte `b` at the cursor, ten successive bit pulls return
exactly the start bit 0, the eight data bits of `b` least-significant-bit
first, and the stop bit 1. -/
theorem put_bit_frames_byte (s : TxState) (b : Nat)
    (hne : s.ptr ≤ s.bytes2send) (hph : s.current_bit_no = 0)
    (hb : byteAt s = b) :
    (putBits s 10).1 =
      [0, (b >>> 0) &&& 1, (b >>> 1) &&& 1, (b >>> 2) &&& 1, (b >>> 3) &&& 1,
       (b >>> 4) &&& 1, (b >>> 5) &&& 1, (b >>> 6) &&& 1, (b >>> 7) &&& 1, 1] := by
  obtain ⟨p, m, bn, msg⟩ := s
  change bn = 0 at hph
  subst hph
  change msg.getD p 0 = b at hb
  subst hb
  exact congrArg Prod.fst (frame10 p m msg hne)

/-- Witness for C1 at the claim's own example: byte `0x41` yields
`0,1,0,0,0,0,0,1,0,1`. -/
theorem put_bit_frames_byte_witness :
    (putBits ⟨0, 1, 0, [65]⟩ 10).1 = [0, 1, 0, 0, 0, 0, 0, 1, 0, 1] := by
  have h := put_bit_frames_byte ⟨0, 1, 0, [65]⟩ 65 (by decide) rfl rfl
  exact h.trans (by decide)

/-- Claim C2: for a transmit session over a message of length `L`, every
one of the first `(L+1)*10` pulls happens with the session not yet
exhausted; after exactly `(L+1)*10` pulls the cursor stands at `L+1`
(exhausted, phase 0); and from that state any number of further pulls
returns only 1s and leaves the whole session state unchanged. -/
theorem put_bit_session_exhaustion (msg : List Nat) :
    (∀ i, i < (msg.length + 1) * 10 →
        (putBits (mkTxSession msg) i).2.ptr ≤ (mkTxSession msg).bytes2send) ∧
    (putBits (mkTxSession msg) ((msg.length + 1) * 10)).2 =
        ⟨msg.length + 1, msg.length, 0, msg⟩ ∧
    ∀ n,
      putBits ((putBits (mkTxSession msg) ((msg.length + 1) * 10)).2) n =
        (List.replicate n 1, (putBits (mkTxSession msg) ((msg.length + 1) * 10)).2) := by
  have hfin := state_at msg ((msg.length + 1) * 10) le_rfl
  have hdm : (msg.length + 1) * 10 / 10 = msg.length + 1 := by omega
  have hmd : (msg.length + 1) * 10 % 10 = 0 := by omega
  rw [hdm, hmd] at hfin
  refine ⟨?_, hfin, ?_⟩
  · intro i hi
    rw [state_at msg i (by omega)]
    show i / 10 ≤ (mkTxSession msg).bytes2send
    show i / 10 ≤ msg.length
    omega
  · intro n
    rw [hfin]
    exact putBits_exhausted _ (Nat.lt_succ_self msg.length) n

/-- Witness for C2 on the one-byte message `[65]`: 20 pulls exhaust the
session at cursor 2, and 3 further pulls return `1,1,1` without moving it. -/
theorem put_bit_session_exhaustion_witness :
    (putBits (mkTxSession [65]) (([65].length + 1) * 10)).2 = ⟨2, 1, 0, [65]⟩ ∧
    putBits ((putBits (mkTxSession [65]) (([65].length + 1) * 10)).2) 3 =
      ([1, 1, 1], (putBits (mkTxSession [65]) (([65].length + 1) * 10)).2) := by
  have h := put_bit_session_exhaustion [65]
  refine ⟨h.2.1, ?_⟩
  exact (h.2.2 3).trans (by rfl)

/-- Claim C3 (code bug): with the receive buffer exactly full
(`writeCursor = capacity - 1`, here capacity 4), `get_bit` simply stores
the pushed byte in the last slot (the one reserved for the terminator)
and advances the cursor to the full capacity; no `BufferOverflow`
condition exists anywhere in the code. -/
theorem get_bit_overflow_unchecked :
    get_bit ⟨3, true, false, [10, 20, 30, 0]⟩ 65 =
      ⟨4, true, false, [10, 20, 30, 65]⟩ := by
  decide

/-- Claim C4 (code bug): after a hangup abort of the transmit loop, or a
write-failure abort of the receive loop, the local `res` holds `-1` but
both entry points return `0` (the success value), not a failure result. -/
theorem exec_return_zero_on_abort :
    fskTX_exec 6 [65] [TxEvent.hangup] = (-1, 0) ∧
    fskRX_exec [RxEvent.frame [72] false] false ⟨0, true, false, []⟩ 8 = (-1, 0) := by
  decide

/-- Claim C5 (code bug): whatever the options say, the setup sequence of
`fskRX_exec` leaves `quitoncarrierlost = 1` when the receive loop starts,
because the unconditional `in->quitoncarrierlost = 1;` runs after option
parsing; with option `h` the flag should be 0 at that point. -/
theorem rxSetup_quitoncarrierlost_always_true
    (junk : RxState) (hFlag : Bool) (cap : Nat) :
    (rxSetup junk hFlag cap).quitoncarrierlost = true := by
  cases hFlag <;> rfl

/-- Claim C6 counterexample: after the 10 bits of the single payload byte
of message `[65]`, the loop guard `ptr < bytes2send` is already false
although `byteCursor = length` (the terminator frame is entirely unsent),
and the loop exits normally with result 0 even though more transport
frames are available. -/
theorem txLoop_exits_at_terminator :
    txLoopGuard ((putBits (mkTxSession [65]) 10).2) = false ∧
    ((putBits (mkTxSession [65]) 10).2).ptr ≤
      ((putBits (mkTxSession [65]) 10).2).bytes2send ∧
    txLoop 6 [TxEvent.frame true] ((putBits (mkTxSession [65]) 10).2) =
      ((putBits (mkTxSession [65]) 10).2, 0) := by
  decide

/-- Claim C6 as amended: the transmit driver loop terminates normally
exactly when `byteCursor ≥ length`; in particular whenever that holds the
loop performs no iteration and ends with the normal result 0, so it can
exit with `byteCursor = length`, before the terminator frame is flushed. -/
theorem txLoop_guard_iff (bits : Nat) (evs : List TxEvent) (s : TxState) :
    (txLoopGuard s = false ↔ s.bytes2send ≤ s.ptr) ∧
    (s.bytes2send ≤ s.ptr → txLoop bits evs s = (s, 0)) := by
  constructor
  · simp [txLoopGuard]
  · intro hle
    have hg : ¬(txLoopGuard s = true) := by
      simp [txLoopGuard]
      omega
    cases evs with
    | nil => rfl
    | cons ev rest =>
      cases ev with
      | hangup => simp [txLoop, hg]
      | frame ok => cases ok <;> simp [txLoop, hg]

/-- Witness for the amended C6 on a concrete exhausted-terminator state. -/
theorem txLoop_guard_iff_witness :
    txLoop 6 [TxEvent.frame true] ⟨2, 1, 0, [65]⟩ = (⟨2, 1, 0, [65]⟩, 0) := by
  have h := txLoop_guard_iff 6 [TxEvent.frame true] ⟨2, 1, 0, [65]⟩
  exact h.2 (by decide)

/-- Claim C7: pushing byte values `v1..vn` into a fresh receive session
with `stopOnCarrierLoss = true` and then signalling carrier loss yields
`FSK_eof = true` with the first `n` buffer bytes equal to `v1..vn` in
arrival order. -/
theorem rx_session_bytes_then_carrier_loss (cap : Nat) (vs : List Int)
    (hlen : vs.length ≤ cap) (hv : ∀ v ∈ vs, 0 ≤ v ∧ v < 256) :
    (rx_status (vs.foldl get_bit (mkRxSession cap true)) (-1)).FSK_eof = true ∧
    (rx_status (vs.foldl get_bit (mkRxSession cap true)) (-1)).buffer.take vs.length =
      vs.map Int.toNat := by
  have hfold : vs.foldl get_bit (mkRxSession cap true) =
      { ptr := vs.length, quitoncarrierlost := true, FSK_eof := false,
        buffer := writeBytes (List.replicate cap 0) 0 vs } := by
    rw [foldl_get_bit vs _ (fun v hv1 => (hv v hv1).1)]
    simp [mkRxSession]
  rw [hfold]
  constructor
  · simp [rx_status]
  · have hsplit := writeBytes_split vs (List.replicate cap 0) 0 (by simpa using hlen)
    simp only [rx_status, and_self, if_pos]
    show (writeBytes (List.replicate cap 0) 0 vs).take vs.length = vs.map Int.toNat
    rw [hsplit]
    simp only [List.take_zero, List.nil_append, Nat.zero_add]
    rw [List.take_left' (by simp)]
    apply List.map_congr_left
    intro v hv1
    have h1 := (hv v hv1).1
    have h2 := (hv v hv1).2
    omega

/-- Witness for C7 with `cap = 3` and values `72, 73`. -/
theorem rx_session_bytes_then_carrier_loss_witness :
    (rx_status ([72, 73].foldl get_bit (mkRxSession 3 true)) (-1)).FSK_eof = true ∧
    (rx_status ([72, 73].foldl get_bit (mkRxSession 3 true)) (-1)).buffer.take 2 =
      [72, 73] := by
  have h := rx_session_bytes_then_carrier_loss 3 [72, 73] (by decide) (by decide)
  exact ⟨h.1, h.2.trans (by decide)⟩

/-- Claim C8: `rx_status` produces `FSK_eof = true` exactly when it was
already set or the status is carrier loss (`-1`) with
`quitoncarrierlost` true; with the flag false it changes nothing, and any
status other than `-1` changes nothing. -/
theorem rx_status_eof_policy (s : RxState) (code : Int) :
    ((rx_status s code).FSK_eof = true ↔
      (s.FSK_eof = true ∨ (code = -1 ∧ s.quitoncarrierlost = true))) ∧
    (s.quitoncarrierlost = false → rx_status s code = s) ∧
    (code ≠ -1 → rx_status s code = s) := by
  refine ⟨?_, ?_, ?_⟩
  · by_cases h : code = -1 ∧ s.quitoncarrierlost = true
    · simp [rx_status, h]
    · simp [rx_status, h]
  · intro hq
    simp [rx_status, hq]
  · intro hc
    simp [rx_status, hc]

/-- Witness for C8: a non-carrier-loss status and a carrier-loss status
with the policy flag off both leave the session untouched. -/
theorem rx_status_eof_policy_witness :
    rx_status ⟨0, true, false, []⟩ (-2) = ⟨0, true, false, []⟩ ∧
    rx_status ⟨0, false, false, []⟩ (-1) = ⟨0, false, false, []⟩ := by
  have h1 := rx_status_eof_policy ⟨0, true, false, []⟩ (-2)
  have h2 := rx_status_eof_policy ⟨0, false, false, []⟩ (-1)
  exact ⟨h1.2.2 (by decide), h2.2.1 rfl⟩

/-- Claim C9: when the cursor stands at the terminator position (one past
the payload, where the C string stores its NUL) with phase 0, the emitted
frame is `0,0,0,0,0,0,0,0,0,1` — the framed encoding of byte 0. -/
theorem terminator_frame_bits (s : TxState)
    (hptr : s.ptr = s.buffer.length) (hlen : s.bytes2send = s.buffer.length)
    (hph : s.current_bit_no = 0) :
    (putBits s 10).1 = [0, 0, 0, 0, 0, 0, 0, 0, 0, 1] := by
  obtain ⟨p, m, bn, msg⟩ := s
  change p = msg.length at hptr
  change m = msg.length at hlen
  change bn = 0 at hph
  subst hptr
  subst hlen
  subst hph
  have h0 : msg.getD msg.length 0 = 0 := by
    simp [List.getD_eq_getElem?_getD, List.getElem?_eq_none (le_refl msg.length)]
  have h := frame10 msg.length msg.length msg (le_refl _)
  rw [h0] at h
  exact (congrArg Prod.fst h).trans (by rfl)

/-- Witness for C9 on the two-byte message `"HI"`. -/
theorem terminator_frame_bits_witness :
    (putBits ⟨2, 2, 0, [72, 73]⟩ 10).1 = [0, 0, 0, 0, 0, 0, 0, 0, 0, 1] :=
  terminator_frame_bits ⟨2, 2, 0, [72, 73]⟩ rfl rfl rfl

/-- Claim C10: pushing a non-negative value `v` stores exactly `v mod 256`
(the low 8 bits) at the write cursor, advances the cursor by one, and
touches nothing else. -/
theorem get_bit_stores_mod256 (s : RxState) (v : Int) (hv : 0 ≤ v) :
    (get_bit s v).ptr = s.ptr + 1 ∧
    (get_bit s v).buffer = s.buffer.set s.ptr (v.toNat % 256) ∧
    (get_bit s v).quitoncarrierlost = s.quitoncarrierlost ∧
    (get_bit s v).FSK_eof = s.FSK_eof ∧
    (s.ptr < s.buffer.length →
      (get_bit s v).buffer.getD s.ptr 0 = v.toNat % 256) := by
  have hneg : ¬v < 0 := by omega
  refine ⟨?_, ?_, ?_, ?_, ?_⟩
  · simp [get_bit, hneg]
  · simp [get_bit, hneg]
  · simp [get_bit, hneg]
  · simp [get_bit, hneg]
  · intro h
    simp [get_bit, hneg, List.getD_eq_getElem?_getD, List.getElem?_set_self h]

/-- Witness for C10: pushing 300 into a fresh two-byte buffer stores
`300 mod 256 = 44` at offset 0 and moves the cursor to 1. -/
theorem get_bit_stores_mod256_witness :
    (get_bit ⟨0, true, false, [0, 0]⟩ 300).ptr = 1 ∧
    (get_bit ⟨0, true, false, [0, 0]⟩ 300).buffer.getD 0 0 = 44 := by
  have h := get_bit_stores_mod256 ⟨0, true, false, [0, 0]⟩ 300 (by decide)
  refine ⟨h.1, ?_⟩
  exact (h.2.2.2.2 (by decide)).trans (by decide)

end AppFsk
